import Mathlib

set_option linter.unusedVariables false

/-!
Verification of the adaptive online disentanglement engine of
`src/ssumo/model/disentangle.py` (scrubvae).

The stateful numerical code is shallowly embedded over exact rationals:
tensors become functions `ℕ → ℚ` / `ℕ → ℕ → ℚ` or Mathlib matrices over `ℚ`,
`torch.mean` over an empty selection (which yields NaN in the source) becomes
`Option.none`, and Python exceptions become `Except`.  Square roots taken by
`torch.linalg.norm` are modelled with `Real.sqrt` applied to a computable
rational sum of squares.
-/

namespace ScrubVae

open scoped Matrix

/-- Model of `np.clip(v, 0.0, 1.0)` / `torch.clamp(v, 0.0, 1.0)`: clamp a scalar to
the unit interval. -/
def clamp01 (v : ℚ) : ℚ := min (max v 0) 1

/-- A dual-rate forgetting-factor pair.  `fast` is the factor that is
decreased when the fast estimator wins (`lam1` in `MovingAverageFilter`,
`lama` in `QuadraticDiscriminantFilter`, `lam0` in `MovingAvgLeastSquares`);
`slow` is initialised as `fast + lamdiff`. -/
structure LamPair where
  fast : ℚ
  slow : ℚ
deriving DecidableEq, Repr

/-- Forgetting-factor adaptation performed by
`MovingAverageFilter.evaluate_loss` (disentangle.py lines 52-57).
`fastWin` is the branch condition `d1 < d2` computed from the batch:

    if d1 < d2:
        self.lam1[i] = np.clip(self.lam1[i] - self.delta, 0.0, 1.0)
        self.lam2[i] = self.lam1[i] + self.lamdiff
    else:
        self.lam2[i] = np.clip(self.lam2[i] + self.delta, 0.0, 1.0)
        self.lam1[i] = self.lam2[i] - self.lamdiff
-/
def mafLamStep (lamdiff delta : ℚ) (p : LamPair) (fastWin : Bool) : LamPair :=
  if fastWin then
    let l1 := clamp01 (p.fast - delta)
    { fast := l1, slow := l1 + lamdiff }
  else
    let l2 := clamp01 (p.slow + delta)
    { fast := l2 - lamdiff, slow := l2 }

/-- Forgetting-factor adaptation performed by
`QuadraticDiscriminantFilter.evaluate_loss` (disentangle.py lines 213-241),
for one tracked class.  `aWins` is the branch condition `lla > llb`
(classifier A scored a higher log-likelihood than classifier B):
`lama` is clamp-decreased and `lamb := lama + lamdiff`, otherwise `lamb` is
clamp-increased and `lama := lamb - lamdiff`. -/
def qdfLamStep (lamdiff delta : ℚ) (p : LamPair) (aWins : Bool) : LamPair :=
  if aWins then
    let la := clamp01 (p.fast - delta)
    { fast := la, slow := la + lamdiff }
  else
    let lb := clamp01 (p.slow + delta)
    { fast := lb - lamdiff, slow := lb }

/-- Forgetting-factor adaptation performed by
`MovingAvgLeastSquares.evaluate_loss` (disentangle.py lines 368-378).
`fastWin` is the branch condition `l0 < l1` (decoder 0 achieved a smaller
summed squared error on the batch). -/
def malsLamStep (lamdiff delta : ℚ) (p : LamPair) (fastWin : Bool) : LamPair :=
  if fastWin then
    let l0 := clamp01 (p.fast - delta)
    { fast := l0, slow := l0 + lamdiff }
  else
    let l1 := clamp01 (p.slow + delta)
    { fast := l1 - lamdiff, slow := l1 }

/-- Run a forgetting-factor pair through a finite sequence of branch
outcomes (one entry per `evaluate_loss` call in which that class's factors
are adapted). -/
def lamIterate (step : LamPair → Bool → LamPair) (init : LamPair) :
    List Bool → LamPair
  | [] => init
  | b :: bs => lamIterate step (step init b) bs

/-- Initial factors of `MovingAverageFilter.__init__`:
`lam1 = 0.5`, `lam2 = lam1 + lamdiff` (lines 21-22). -/
def mafInitLam (lamdiff : ℚ) : LamPair := { fast := 1/2, slow := 1/2 + lamdiff }

/-- Initial factors of `QuadraticDiscriminantFilter.__init__` for each class:
`lama = 0.2`, `lamb = lama + lamdiff` (lines 109-115). -/
def qdfInitLam (lamdiff : ℚ) : LamPair := { fast := 1/5, slow := 1/5 + lamdiff }

/-- Initial factors of `MovingAvgLeastSquares.__init__`:
`lam0 = 0.9`, `lam1 = lam0 + lamdiff` (lines 278-281). -/
def malsInitLam (lamdiff : ℚ) : LamPair := { fast := 9/10, slow := 9/10 + lamdiff }

lemma mafLamStep_gap (lamdiff delta : ℚ) (p : LamPair) (b : Bool) :
    (mafLamStep lamdiff delta p b).slow - (mafLamStep lamdiff delta p b).fast
      = lamdiff := by
  cases b <;> simp [mafLamStep]

lemma qdfLamStep_gap (lamdiff delta : ℚ) (p : LamPair) (b : Bool) :
    (qdfLamStep lamdiff delta p b).slow - (qdfLamStep lamdiff delta p b).fast
      = lamdiff := by
  cases b <;> simp [qdfLamStep]

lemma malsLamStep_gap (lamdiff delta : ℚ) (p : LamPair) (b : Bool) :
    (malsLamStep lamdiff delta p b).slow - (malsLamStep lamdiff delta p b).fast
      = lamdiff := by
  cases b <;> simp [malsLamStep]

lemma lamIterate_gap (step : LamPair → Bool → LamPair) (lamdiff : ℚ)
    (hstep : ∀ p b, (step p b).slow - (step p b).fast = lamdiff)
    (init : LamPair) (hinit : init.slow - init.fast = lamdiff) :
    ∀ bs : List Bool,
      (lamIterate step init bs).slow - (lamIterate step init bs).fast = lamdiff
  | [] => hinit
  | b :: bs => lamIterate_gap step lamdiff hstep (step init b) (hstep init b) bs

/-- C2: for each of the three trackers, for every tracked class, and for
every finite sequence of `update`/`evaluate_loss` calls starting from
construction (each call's data-dependent branch outcome is abstracted as a
Boolean, so all data sequences are covered), the slow forgetting factor minus
the fast one equals the constructor's `lamdiff` gap after every call — here
even exactly, not merely within floating tolerance. -/
theorem dualRate_gap_invariant (lamdiff delta : ℚ) (bs : List Bool) :
    (lamIterate (mafLamStep lamdiff delta) (mafInitLam lamdiff) bs).slow
        - (lamIterate (mafLamStep lamdiff delta) (mafInitLam lamdiff) bs).fast
        = lamdiff
    ∧ (lamIterate (qdfLamStep lamdiff delta) (qdfInitLam lamdiff) bs).slow
        - (lamIterate (qdfLamStep lamdiff delta) (qdfInitLam lamdiff) bs).fast
        = lamdiff
    ∧ (lamIterate (malsLamStep lamdiff delta) (malsInitLam lamdiff) bs).slow
        - (lamIterate (malsLamStep lamdiff delta) (malsInitLam lamdiff) bs).fast
        = lamdiff := by
  refine ⟨?_, ?_, ?_⟩
  · exact lamIterate_gap _ lamdiff (mafLamStep_gap lamdiff delta) _
      (by simp [mafInitLam]) bs
  · exact lamIterate_gap _ lamdiff (qdfLamStep_gap lamdiff delta) _
      (by simp [qdfInitLam]) bs
  · exact lamIterate_gap _ lamdiff (malsLamStep_gap lamdiff delta) _
      (by simp [malsInitLam]) bs

/-- C3, counterexample: with gap `lamdiff = 0.7` (an admissible
constructor argument of `MovingAverageFilter`) and `delta = 0.001`, a single
fast-win adaptation step leaves the slow factor at `0.499 + 0.7 = 1.199 > 1`:
the derived (unclipped) factor escapes `[0, 1]`. -/
theorem lam_range_counterexample :
    1 < (lamIterate (mafLamStep (7/10) (1/1000)) (mafInitLam (7/10))
          [true]).slow := by
  simp [lamIterate, mafLamStep, mafInitLam, clamp01]
  norm_num

lemma mafLamStep_true (lamdiff delta : ℚ) (p : LamPair) :
    mafLamStep lamdiff delta p true
      = { fast := clamp01 (p.fast - delta),
          slow := clamp01 (p.fast - delta) + lamdiff } := rfl

lemma mafLamStep_false (lamdiff delta : ℚ) (p : LamPair) :
    mafLamStep lamdiff delta p false
      = { fast := clamp01 (p.slow + delta) - lamdiff,
          slow := clamp01 (p.slow + delta) } := rfl

/-- Range invariant for one adaptation step of the shared dual-rate shape:
if `0 ≤ delta`, `0 ≤ lamdiff`, the pair keeps its gap, the fast factor is
nonnegative and the slow one is at most `1`, then the same holds after the
step (and hence both factors lie in `[0, 1]`). -/
lemma lamStep_range (lamdiff delta : ℚ) (hdelta : 0 ≤ delta)
    (hdiff : 0 ≤ lamdiff) (p : LamPair) (b : Bool)
    (hgap : p.slow = p.fast + lamdiff) (h0 : 0 ≤ p.fast) (h1 : p.slow ≤ 1) :
    (mafLamStep lamdiff delta p b).slow
        = (mafLamStep lamdiff delta p b).fast + lamdiff
      ∧ 0 ≤ (mafLamStep lamdiff delta p b).fast
      ∧ (mafLamStep lamdiff delta p b).slow ≤ 1 := by
  have hf1 : p.fast ≤ 1 - lamdiff := by linarith
  cases b with
  | true =>
    rw [mafLamStep_true]
    refine ⟨rfl, ?_, ?_⟩
    · exact le_min (le_max_right _ _) (by norm_num)
    · have h2 : max (p.fast - delta) 0 ≤ 1 - lamdiff :=
        max_le (by linarith) (by linarith)
      have h3 : min (max (p.fast - delta) 0) 1 ≤ 1 - lamdiff :=
        le_trans (min_le_left _ _) h2
      simp only [clamp01]
      linarith
  | false =>
    rw [mafLamStep_false]
    refine ⟨by simp, ?_, ?_⟩
    · have h2 : lamdiff ≤ min (max (p.slow + delta) 0) 1 :=
        le_min (le_trans (by linarith) (le_max_left _ _)) (by linarith)
      simp only [clamp01]
      linarith
    · exact min_le_right _ _

lemma lamIterate_range (lamdiff delta : ℚ) (hdelta : 0 ≤ delta)
    (hdiff : 0 ≤ lamdiff) :
    ∀ (bs : List Bool) (p : LamPair),
      p.slow = p.fast + lamdiff → 0 ≤ p.fast → p.slow ≤ 1 →
      (lamIterate (mafLamStep lamdiff delta) p bs).slow
          = (lamIterate (mafLamStep lamdiff delta) p bs).fast + lamdiff
        ∧ 0 ≤ (lamIterate (mafLamStep lamdiff delta) p bs).fast
        ∧ (lamIterate (mafLamStep lamdiff delta) p bs).slow ≤ 1
  | [], p, hgap, h0, h1 => ⟨hgap, h0, h1⟩
  | b :: bs, p, hgap, h0, h1 => by
    obtain ⟨hgap', h0', h1'⟩ :=
      lamStep_range lamdiff delta hdelta hdiff p b hgap h0 h1
    exact lamIterate_range lamdiff delta hdelta hdiff bs _ hgap' h0' h1'

/-- The three trackers' per-step factor updates are literally the same
rational function of the pair and the branch outcome. -/
lemma qdfLamStep_eq_maf (lamdiff delta : ℚ) (p : LamPair) (b : Bool) :
    qdfLamStep lamdiff delta p b = mafLamStep lamdiff delta p b := by
  cases b <;> rfl

lemma malsLamStep_eq_maf (lamdiff delta : ℚ) (p : LamPair) (b : Bool) :
    malsLamStep lamdiff delta p b = mafLamStep lamdiff delta p b := by
  cases b <;> rfl

lemma lamIterate_congr (f g : LamPair → Bool → LamPair)
    (h : ∀ p b, f p b = g p b) :
    ∀ (bs : List Bool) (p : LamPair), lamIterate f p bs = lamIterate g p bs
  | [], _ => rfl
  | b :: bs, p => by
    rw [lamIterate, lamIterate, h p b]
    exact lamIterate_congr f g h bs _

/-- Both factors of a pair lie in the unit interval. -/
def lamPairInRange (p : LamPair) : Prop :=
  0 ≤ p.fast ∧ p.fast ≤ 1 ∧ 0 ≤ p.slow ∧ p.slow ≤ 1

instance (p : LamPair) : Decidable (lamPairInRange p) := by
  unfold lamPairInRange; infer_instance

/-- C3, amended: provided the adaptation step `delta` and the gap
`lamdiff` are nonnegative and the initial slow factor does not already
exceed `1` — i.e. `lamdiff ≤ 0.5` for `MovingAverageFilter` (initial fast
factor `0.5`), `lamdiff ≤ 0.8` for `QuadraticDiscriminantFilter` (initial
`0.2`), and `lamdiff ≤ 0.1` for `MovingAvgLeastSquares` (initial `0.9`) —
all satisfied by the constructors' default arguments — both forgetting
factors of each dual-rate pair, including the unclipped one derived as the
clipped one plus or minus the gap, remain within `[0, 1]` after any number
of adaptation steps, for every possible sequence of fast-wins and
slow-wins. -/
theorem lam_range_invariant (lamdiff delta : ℚ) (hdelta : 0 ≤ delta)
    (hdiff : 0 ≤ lamdiff) (bs : List Bool) :
    (lamdiff ≤ 1/2 →
      lamPairInRange (lamIterate (mafLamStep lamdiff delta)
        (mafInitLam lamdiff) bs))
    ∧ (lamdiff ≤ 4/5 →
      lamPairInRange (lamIterate (qdfLamStep lamdiff delta)
        (qdfInitLam lamdiff) bs))
    ∧ (lamdiff ≤ 1/10 →
      lamPairInRange (lamIterate (malsLamStep lamdiff delta)
        (malsInitLam lamdiff) bs)) := by
  have key : ∀ p : LamPair, p.slow = p.fast + lamdiff → 0 ≤ p.fast →
      p.slow ≤ 1 →
      lamPairInRange (lamIterate (mafLamStep lamdiff delta) p bs) := by
    intro p hgap h0 h1
    obtain ⟨hgap', h0', h1'⟩ :=
      lamIterate_range lamdiff delta hdelta hdiff bs p hgap h0 h1
    exact ⟨h0', by linarith, by linarith, h1'⟩
  refine ⟨fun h => ?_, fun h => ?_, fun h => ?_⟩
  · exact key (mafInitLam lamdiff) (by simp [mafInitLam])
      (by norm_num [mafInitLam]) (by simp [mafInitLam]; linarith)
  · rw [lamIterate_congr _ _ (qdfLamStep_eq_maf lamdiff delta)]
    exact key (qdfInitLam lamdiff) (by simp [qdfInitLam])
      (by norm_num [qdfInitLam]) (by simp [qdfInitLam]; linarith)
  · rw [lamIterate_congr _ _ (malsLamStep_eq_maf lamdiff delta)]
    exact key (malsInitLam lamdiff) (by simp [malsInitLam])
      (by norm_num [malsInitLam]) (by simp [malsInitLam]; linarith)

/-- Witness for `lam_range_invariant` at the default constructor arguments
`lamdiff = 0.01`, `delta = 0.001` and a concrete win sequence. -/
theorem lam_range_invariant_witness :
    lamPairInRange (lamIterate (mafLamStep (1/100) (1/1000))
        (mafInitLam (1/100)) [true, false, true])
    ∧ lamPairInRange (lamIterate (qdfLamStep (1/100) (1/1000))
        (qdfInitLam (1/100)) [true, false, true])
    ∧ lamPairInRange (lamIterate (malsLamStep (1/100) (1/1000))
        (malsInitLam (1/100)) [true, false, true]) := by
  obtain ⟨h1, h2, h3⟩ := lam_range_invariant (1/100) (1/1000)
    (by norm_num) (by norm_num) [true, false, true]
  exact ⟨h1 (by norm_num), h2 (by norm_num), h3 (by norm_num)⟩

/-! ### Gradient reversal primitive (`GradientReversal`, lines 384-408) -/

/-- Model of `GradientReversal.forward(ctx, x, alpha)` (disentangle.py lines 386-388):
saves `(x, alpha)` for the backward pass and returns `x` unchanged. -/
def gradientReversalForward {n : ℕ} (x : Fin n → ℚ) (alpha : ℚ) :
    Fin n → ℚ := x

/-- Model of `GradientReversal.backward(ctx, grad_output)` (lines 390-396):
`grad_input` starts as `None`; if `ctx.needs_input_grad[0]` it is set to
`-alpha * grad_output`; the pair `(grad_input, None)` is returned, the
second component being the (absent) gradient with respect to `alpha`. -/
def gradientReversalBackward {n : ℕ} (needsInputGrad : Bool) (alpha : ℚ)
    (gradOutput : Fin n → ℚ) : Option (Fin n → ℚ) × Option ℚ :=
  (if needsInputGrad then some (fun i => -alpha * gradOutput i) else none,
   none)

/-- C4: the gradient-reversal primitive's forward pass returns its input
unchanged; its backward pass maps an upstream gradient `g` to `-alpha * g`
with respect to the input (so `-2 g` when `alpha = 2`) and produces no
gradient with respect to `alpha`. -/
theorem gradientReversal_contract {n : ℕ} (x g : Fin n → ℚ) (alpha : ℚ)
    (needs : Bool) :
    gradientReversalForward x alpha = x
    ∧ (gradientReversalBackward true alpha g).1
        = some (fun i => -alpha * g i)
    ∧ (gradientReversalBackward needs alpha g).2 = none
    ∧ (gradientReversalBackward true 2 g).1 = some (fun i => -2 * g i) := by
  exact ⟨rfl, rfl, rfl, rfl⟩

/-! ### Linear decoupler (`LinearProjection.forward`, lines 500-507, and
`LinearDisentangle.forward`, lines 551-563) -/

/-- Model of `torch.linalg.solve(A, B)`: the solution of `A X = B`, realised
computably over `ℚ` through the adjugate.  For invertible `A` this equals
`A⁻¹ * B`; see `mul_linSolve`. -/
def linSolve {n m : ℕ} (A : Matrix (Fin n) (Fin n) ℚ)
    (B : Matrix (Fin n) (Fin m) ℚ) : Matrix (Fin n) (Fin m) ℚ :=
  (A.det)⁻¹ • (A.adjugate * B)

lemma mul_linSolve {n m : ℕ} (A : Matrix (Fin n) (Fin n) ℚ)
    (B : Matrix (Fin n) (Fin m) ℚ) (h : IsUnit A.det) :
    A * linSolve A B = B := by
  unfold linSolve
  rw [Matrix.mul_smul, ← Matrix.mul_assoc, Matrix.mul_adjugate,
    Matrix.smul_mul, Matrix.one_mul, smul_smul,
    inv_mul_cancel₀ h.ne_zero, one_smul]

/-- Model of `self.decoder(z)` for `decoder = nn.Linear(in_dim, out_dim, bias)`
applied to a batch `z` of row vectors (PyTorch convention
`x = z Wᵀ + b`, the bias row broadcast over the batch; the decoders of
`LinearProjection` and `LinearDisentangle` default to `bias=False`,
i.e. `b = 0`). -/
def linearDecoder {m i o : ℕ} (W : Matrix (Fin o) (Fin i) ℚ)
    (b : Fin o → ℚ) (z : Matrix (Fin m) (Fin i) ℚ) :
    Matrix (Fin m) (Fin o) ℚ :=
  z * Wᵀ + Matrix.of fun _ j => b j

/-- The null-space latent computed identically by
`LinearProjection.forward` and `LinearDisentangle.forward`:

    x = self.decoder(z); w = self.decoder.weight
    nrm = w @ w.T
    z_null = z - torch.linalg.solve(nrm, x.T).T @ w
-/
def zNullOf {m i o : ℕ} (W : Matrix (Fin o) (Fin i) ℚ) (b : Fin o → ℚ)
    (z : Matrix (Fin m) (Fin i) ℚ) : Matrix (Fin m) (Fin i) ℚ :=
  z - (linSolve (W * Wᵀ) (linearDecoder W b z)ᵀ)ᵀ * W

/-- C1, amended: for every batch `z` and every decoder whose weight Gram
matrix `W Wᵀ` is invertible **and whose bias is absent or zero** (the
default `bias=False` configuration), the null-space latent satisfies
`W · z_nullᵀ = 0` — exactly, in exact arithmetic, for every batch size. -/
theorem zNull_in_kernel {m i o : ℕ} (W : Matrix (Fin o) (Fin i) ℚ)
    (b : Fin o → ℚ) (z : Matrix (Fin m) (Fin i) ℚ)
    (hW : IsUnit (W * Wᵀ).det) (hb : b = 0) :
    W * (zNullOf W b z)ᵀ = 0 := by
  have hx : (linearDecoder W b z)ᵀ = W * zᵀ := by
    subst hb
    have hzero : (Matrix.of fun _ j => (0 : Fin o → ℚ) j)
        = (0 : Matrix (Fin m) (Fin o) ℚ) := by
      ext i j; simp
    rw [linearDecoder, hzero, add_zero, Matrix.transpose_mul,
      Matrix.transpose_transpose]
  rw [zNullOf, Matrix.transpose_sub, Matrix.mul_sub, Matrix.transpose_mul,
    Matrix.transpose_transpose, ← Matrix.mul_assoc,
    mul_linSolve _ _ hW, hx, sub_self]

/-- Witness for `zNull_in_kernel` at `W = [[1]]`, zero bias, `z = [[2]]`. -/
theorem zNull_in_kernel_witness :
    (!![(1 : ℚ)]) * (zNullOf !![(1 : ℚ)] 0 !![2])ᵀ = 0 :=
  zNull_in_kernel !![(1 : ℚ)] 0 !![2]
    (by
      have hdet : ((!![(1 : ℚ)]) * (!![(1 : ℚ)])ᵀ).det = 1 := by
        simp [Matrix.det_fin_one, Matrix.mul_apply, Fin.sum_univ_one,
          Matrix.vecHead, Matrix.vecCons]
      rw [hdet]; exact isUnit_one)
    rfl

/-- C1, counterexample: the claim quantifies over every decoder
configuration with invertible Gram matrix, but with `bias=True` and a
nonzero bias the solve is taken against `x = z Wᵀ + b`, so
`W · z_nullᵀ = -bᵀ ≠ 0`: at `W = [[1]]`, `b = (1)`, `z = [[0]]` the Gram
matrix is invertible yet `W · z_nullᵀ = [[-1]] ≠ 0`. -/
theorem zNull_bias_counterexample :
    IsUnit ((!![(1 : ℚ)]) * (!![(1 : ℚ)])ᵀ).det
    ∧ (!![(1 : ℚ)]) * (zNullOf !![(1 : ℚ)] ![1] !![0])ᵀ ≠ 0 := by
  constructor
  · have hdet : ((!![(1 : ℚ)]) * (!![(1 : ℚ)])ᵀ).det = 1 := by
      simp [Matrix.det_fin_one, Matrix.mul_apply, Fin.sum_univ_one,
        Matrix.vecHead, Matrix.vecCons]
    rw [hdet]; exact isUnit_one
  · intro h
    have h00 := congrFun (congrFun h 0) 0
    simp [zNullOf, linearDecoder, linSolve, Matrix.mul_apply,
      Matrix.det_fin_one, Matrix.adjugate_fin_one, Fin.sum_univ_one,
      Matrix.sub_apply, Matrix.smul_apply, Matrix.vecHead, Matrix.vecCons]
      at h00

/-! ### Batch statistics over exact rationals

Batches are lists of rows (`ℕ → ℚ`, the first `nx` coordinates being the
features) paired with integer labels. -/

/-- Selection `x[y == label]`: the rows of the batch whose label equals `label`. -/
def rowsOfClass (x : List (ℕ → ℚ)) (y : List ℤ) (label : ℤ) :
    List (ℕ → ℚ) :=
  ((x.zip y).filter fun q => q.2 == label).map Prod.fst

/-- Selection `x[y != label]`: the rows of the batch whose label differs from
`label`. -/
def rowsNotClass (x : List (ℕ → ℚ)) (y : List ℤ) (label : ℤ) :
    List (ℕ → ℚ) :=
  ((x.zip y).filter fun q => q.2 != label).map Prod.fst

/-- Coordinatewise mean of a list of rows (the value of
`torch.mean(rows, axis=0)` on a nonempty selection). -/
def rowsMeanD (rows : List (ℕ → ℚ)) : ℕ → ℚ :=
  fun j => ((rows.map fun r => r j).sum) / rows.length

/-- Model of `torch.mean(rows, axis=0)`: `none` on an empty selection, where the
source silently produces NaN. -/
def rowsMean (rows : List (ℕ → ℚ)) : Option (ℕ → ℚ) :=
  if rows.isEmpty then none else some (rowsMeanD rows)

/-- Entries of `torch.cov(rows.T, correction=0)` on a nonempty selection:
biased empirical covariance of the rows. -/
def rowsCovD (rows : List (ℕ → ℚ)) : ℕ → ℕ → ℚ :=
  fun a b =>
    ((rows.map fun r =>
        (r a - rowsMeanD rows a) * (r b - rowsMeanD rows b)).sum)
      / rows.length

/-- Model of `torch.cov(rows.T, correction=0)`: `none` on an empty selection. -/
def rowsCov (rows : List (ℕ → ℚ)) : Option (ℕ → ℕ → ℚ) :=
  if rows.isEmpty then none else some (rowsCovD rows)

/-- Squared Euclidean distance of the first `nx` coordinates.
`torch.linalg.norm(u - v)` is its square root; since `Real.sqrt` is
strictly monotone on nonnegatives, the source's norm comparison `d1 < d2`
is exactly the comparison of these squares. -/
def sqDist (nx : ℕ) (u v : ℕ → ℚ) : ℚ :=
  ∑ j ∈ Finset.range nx, (u j - v j) ^ 2

/-- In-place mutation of row `i` of a per-class tensor
(`self.m1[i] = ...`). -/
def updRow (f : ℕ → ℕ → ℚ) (i : ℕ) (v : ℕ → ℚ) : ℕ → ℕ → ℚ :=
  fun c => if c = i then v else f c

/-- In-place mutation of entry `i` of a per-class vector
(`self.lam1[i] = ...`). -/
def updAt (f : ℕ → ℚ) (i : ℕ) (v : ℚ) : ℕ → ℚ :=
  fun c => if c = i then v else f c

/-! ### `MovingAverageFilter` (lines 7-72) -/

/-- Buffers of `MovingAverageFilter`: per-class running means `m1`, `m2`
(class index → feature index → value) and per-class forgetting factors
`lam1`, `lam2`. -/
structure MAFState where
  m1 : ℕ → ℕ → ℚ
  m2 : ℕ → ℕ → ℚ
  lam1 : ℕ → ℚ
  lam2 : ℕ → ℚ

/-- The buffer values assigned by `MovingAverageFilter.__init__`
(lines 17-22): zero means, `lam1 = 0.5`, `lam2 = lam1 + lamdiff`.
(the initializer in fact raises before completing, see the C10 theorem at
the end of this file; these are the values its assignments describe.) -/
def mafInitState (lamdiff : ℚ) : MAFState :=
  { m1 := fun _ _ => 0
    m2 := fun _ _ => 0
    lam1 := fun _ => 1/2
    lam2 := fun _ => 1/2 + lamdiff }

/-- Body of one iteration of the class loop of
`MovingAverageFilter.evaluate_loss` (lines 43-61) for class index `i`,
given that the class is present in the batch, with
`xbar = torch.mean(x[y == label], axis=0)`:
the winner test `d1 < d2` (embedded as the equivalent comparison of squared
norms) adapts the factor pair exactly as `mafLamStep`, then
`m1[i] := (1 - lam1[i]) * xbar + lam1[i] * m1[i]` and likewise for `m2`
with the freshly updated factors. -/
def mafClassStepD (nx : ℕ) (lamdiff delta : ℚ) (x : List (ℕ → ℚ))
    (y : List ℤ) (s : MAFState) (i : ℕ) (label : ℤ) : MAFState :=
  let xbar := rowsMeanD (rowsOfClass x y label)
  let l := mafLamStep lamdiff delta { fast := s.lam1 i, slow := s.lam2 i }
    (decide (sqDist nx xbar (s.m1 i) < sqDist nx xbar (s.m2 i)))
  { m1 := updRow s.m1 i fun j => (1 - l.fast) * xbar j + l.fast * s.m1 i j
    m2 := updRow s.m2 i fun j => (1 - l.slow) * xbar j + l.slow * s.m2 i j
    lam1 := updAt s.lam1 i l.fast
    lam2 := updAt s.lam2 i l.slow }

/-- One iteration of the class loop of `evaluate_loss`; when the class has
zero examples in the batch, `torch.mean` over zero rows yields NaN, which
the loop folds into the state — embedded as the undefined result `none`. -/
def mafClassStep (nx : ℕ) (lamdiff delta : ℚ) (x : List (ℕ → ℚ))
    (y : List ℤ) (s : MAFState) (i : ℕ) (label : ℤ) : Option MAFState :=
  if (rowsOfClass x y label).isEmpty then none
  else some (mafClassStepD nx lamdiff delta x y s i label)

/-- The class loop of `evaluate_loss` over `enumerate(self.classes)`. -/
def mafRunClasses (nx : ℕ) (lamdiff delta : ℚ) (classes : List ℤ)
    (x : List (ℕ → ℚ)) (y : List ℤ) (s : MAFState) : Option MAFState :=
  classes.enum.foldlM
    (fun st q => mafClassStep nx lamdiff delta x y st q.1 q.2) s

/-- Lines 63-67 of `evaluate_loss`: with the combined estimate
`me = 0.5 * (m1 + m2)` (shape classes × features), the tensor

    d = torch.diagonal(me[..., None] - me[..., None, :],
                       dim1=-1, dim2=-2, offset=1)

has entries `d[c, k] = me[c, k+1] - me[c, k]` for `k < nx - 1`: the
offset-one diagonal of the feature-by-feature difference table, i.e.
**adjacent-feature differences within each class row**, not differences
between class rows.  This is the sum of their squares; the returned loss
`torch.linalg.norm(d)` is its square root. -/
def mafMeanDiffSq (C nx : ℕ) (m1 m2 : ℕ → ℕ → ℚ) : ℚ :=
  ∑ c ∈ Finset.range C, ∑ k ∈ Finset.range (nx - 1),
    ((1/2) * (m1 c (k+1) + m2 c (k+1)) - (1/2) * (m1 c k + m2 c k)) ^ 2

/-- The scalar returned by `MovingAverageFilter.evaluate_loss`
(line 67): `torch.linalg.norm(d)`. -/
noncomputable def mafLoss (C nx : ℕ) (m1 m2 : ℕ → ℕ → ℚ) : ℝ :=
  Real.sqrt (mafMeanDiffSq C nx m1 m2)

/-- Model of `MovingAverageFilter.evaluate_loss`: run the class loop (mutating the
state), then return the updated state with the scalar loss. -/
noncomputable def mafEvaluateLoss (nx : ℕ) (lamdiff delta : ℚ)
    (classes : List ℤ) (x : List (ℕ → ℚ)) (y : List ℤ) (s : MAFState) :
    Option (MAFState × ℝ) :=
  (mafRunClasses nx lamdiff delta classes x y s).map fun t =>
    (t, mafLoss classes.length nx t.m1 t.m2)

/-! ### `QuadraticDiscriminantFilter.update` (lines 131-161) -/

/-- Per-class buffers of `QuadraticDiscriminantFilter` for one label:
mean rows `m0a_l, m1a_l, m0b_l, m1b_l`, covariances
`S0a_l, S1a_l, S0b_l, S1b_l`, and the factor pair `lama_l, lamb_l`. -/
structure QDFClassState where
  m0a : ℕ → ℚ
  m1a : ℕ → ℚ
  m0b : ℕ → ℚ
  m1b : ℕ → ℚ
  S0a : ℕ → ℕ → ℚ
  S1a : ℕ → ℕ → ℚ
  S0b : ℕ → ℕ → ℚ
  S1b : ℕ → ℕ → ℚ
  lama : ℚ
  lamb : ℚ

/-- Values of the `QuadraticDiscriminantFilter.__init__` per-class buffers (lines 97-115):
zero means, identity covariances, `lama = 0.2`, `lamb = lama + lamdiff`. -/
def qdfInitClassState (lamdiff : ℚ) : QDFClassState :=
  { m0a := fun _ => 0
    m1a := fun _ => 0
    m0b := fun _ => 0
    m1b := fun _ => 0
    S0a := fun a b => if a = b then 1 else 0
    S1a := fun a b => if a = b then 1 else 0
    S0b := fun a b => if a = b then 1 else 0
    S1b := fun a b => if a = b then 1 else 0
    lama := 1/5
    lamb := 1/5 + lamdiff }

/-- Body of `QuadraticDiscriminantFilter.update` for one tracked label,
given that both row selections are nonempty: empirical means
`m0 = mean(x[y != label])`, `m1 = mean(x[y == label])` and biased empirical
covariances `S0`, `S1`; then every accumulator `P ∈ {m0, m1, S0, S1}` of
both classifier copies `cl ∈ {a, b}` is replaced by

    forgetting + updating = (1 - lam_cl) * P_previous + lam_cl * empirical_P

(lines 145-159: `forgetting` is `(1 - lam) * (current moving avg)` and
`updating` is `lam * empirical`). -/
def qdfUpdateClassD (x : List (ℕ → ℚ)) (y : List ℤ) (label : ℤ)
    (s : QDFClassState) : QDFClassState :=
  let em0 := rowsMeanD (rowsNotClass x y label)
  let em1 := rowsMeanD (rowsOfClass x y label)
  let eS0 := rowsCovD (rowsNotClass x y label)
  let eS1 := rowsCovD (rowsOfClass x y label)
  { m0a := fun j => (1 - s.lama) * s.m0a j + s.lama * em0 j
    m1a := fun j => (1 - s.lama) * s.m1a j + s.lama * em1 j
    m0b := fun j => (1 - s.lamb) * s.m0b j + s.lamb * em0 j
    m1b := fun j => (1 - s.lamb) * s.m1b j + s.lamb * em1 j
    S0a := fun a b => (1 - s.lama) * s.S0a a b + s.lama * eS0 a b
    S1a := fun a b => (1 - s.lama) * s.S1a a b + s.lama * eS1 a b
    S0b := fun a b => (1 - s.lamb) * s.S0b a b + s.lamb * eS0 a b
    S1b := fun a b => (1 - s.lamb) * s.S1b a b + s.lamb * eS1 a b
    lama := s.lama
    lamb := s.lamb }

/-- Model of `QuadraticDiscriminantFilter.update` for one tracked label; when either
the in-class or rest selection is empty, `torch.mean`/`torch.cov` over zero
rows produce NaN statistics that are folded into every accumulator —
embedded as the undefined result `none`. -/
def qdfUpdateClass (x : List (ℕ → ℚ)) (y : List ℤ) (label : ℤ)
    (s : QDFClassState) : Option QDFClassState :=
  if (rowsNotClass x y label).isEmpty || (rowsOfClass x y label).isEmpty
  then none
  else some (qdfUpdateClassD x y label s)

/-! ### `MovingAvgLeastSquares` (lines 253-381) -/

/-- Nondecreasing index sequences of length `k` with entries in
`[lo, n)` — the tail recursion underlying
`torch.combinations(arange(n), k, with_replacement=True)`. -/
def combosWRFrom (lo n : ℕ) : ℕ → List (List ℕ)
  | 0 => [[]]
  | k + 1 =>
    (List.range' lo (n - lo)).flatMap fun j =>
      (combosWRFrom j n k).map fun c => j :: c

/-- Model of `torch.combinations(torch.arange(n), k, with_replacement=True)`: all
nondecreasing `k`-tuples of indices below `n`. -/
def combosWR (n k : ℕ) : List (List ℕ) := combosWRFrom 0 n k

/-- Model of `MovingAvgLeastSquares.polynomial_expansion` (lines 287-317) on one
row of the batch: the row itself, followed, for each
`i in range(1, polynomial_order)`, by the products of the entries indexed
by each combination-with-replacement of size `i + 1`
(`x[:, C_idx].prod(dim=-1)`); `torch.column_stack` concatenates the
blocks. -/
def polyExpandRow (p : ℕ) (row : List ℚ) : List ℚ :=
  row ++ (List.range' 1 (p - 1)).flatMap fun i =>
    (combosWR row.length (i + 1)).map fun c =>
      (c.map fun k => row.getD k 0).prod

/-- The accumulator dimension `nx_poly` computed by
`MovingAvgLeastSquares.__init__` (lines 261-267) for a positive
`polynomial_order = p`, in exact arithmetic:

    for i in range(1, polynomial_order + 1):
        nx_poly += prod(arange(nx, nx + i)) / prod(arange(i) + 1)

each term being the integer `C(nx + i - 1, i)` (the natural division is
exact). -/
def malsPolyDim (nx p : ℕ) : ℕ :=
  ∑ i ∈ Finset.range p,
    (∏ k ∈ Finset.range (i+1), (nx + k)) / Nat.factorial (i+1)

/-- Buffers of `MovingAvgLeastSquares`: normal-equation accumulators
`Sxx, Sxy` for both decoders and the forgetting-factor pair. -/
structure MALSState where
  Sxx0 : ℕ → ℕ → ℚ
  Sxy0 : ℕ → ℕ → ℚ
  Sxx1 : ℕ → ℕ → ℚ
  Sxy1 : ℕ → ℕ → ℚ
  lam0 : ℚ
  lam1 : ℚ

/-- Model of `MovingAvgLeastSquares.update` (lines 334-346) with the default
`bias=False`: the batch is polynomial-expanded, then with the *summed*
(not averaged) moments `xx = xᵀx` and `xy = xᵀy`,

    Sxx0 := lam0 * Sxx0 + xx        Sxy0 := lam0 * Sxy0 + xy
    Sxx1 := lam1 * Sxx1 + xx        Sxy1 := lam1 * Sxy1 + xy

— a decayed running sum with no `(1 - lam)` normalization of the new
batch term. -/
def malsUpdate (p : ℕ) (xs ys : List (List ℚ)) (s : MALSState) :
    MALSState :=
  let xp := xs.map (polyExpandRow p)
  let xx : ℕ → ℕ → ℚ := fun a b =>
    (xp.map fun r => r.getD a 0 * r.getD b 0).sum
  let xy : ℕ → ℕ → ℚ := fun a b =>
    ((xp.zip ys).map fun rz => rz.1.getD a 0 * rz.2.getD b 0).sum
  { Sxx0 := fun a b => s.lam0 * s.Sxx0 a b + xx a b
    Sxy0 := fun a b => s.lam0 * s.Sxy0 a b + xy a b
    Sxx1 := fun a b => s.lam1 * s.Sxx1 a b + xx a b
    Sxy1 := fun a b => s.lam1 * s.Sxy1 a b + xy a b
    lam0 := s.lam0
    lam1 := s.lam1 }

lemma sum_multichoose_aux (k : ℕ) :
    ∀ (m n lo : ℕ), lo + m = n →
      ((List.range' lo m).map fun j => Nat.multichoose (n - j) k).sum
        = Nat.multichoose m (k + 1)
  | 0, n, lo, _ => by simp
  | m + 1, n, lo, h => by
    have htail := sum_multichoose_aux k m n (lo + 1) (by omega)
    have hlo : n - lo = m + 1 := by omega
    rw [List.range'_succ, List.map_cons, List.sum_cons, htail, hlo,
      Nat.add_comm, ← Nat.multichoose_succ_succ]

lemma combosWRFrom_length (n : ℕ) :
    ∀ (k lo : ℕ), (combosWRFrom lo n k).length
      = Nat.multichoose (n - lo) k
  | 0, lo => by simp [combosWRFrom]
  | k + 1, lo => by
    rw [combosWRFrom, List.length_flatMap]
    rcases le_or_lt lo n with hle | hlt
    · have hmap : ∀ j, ((combosWRFrom j n k).map fun c => j :: c).length
          = Nat.multichoose (n - j) k := by
        intro j
        rw [List.length_map, combosWRFrom_length n k j]
      calc ((List.range' lo (n - lo)).map
              (List.length ∘ fun j => (combosWRFrom j n k).map
                fun c => j :: c)).sum
          = ((List.range' lo (n - lo)).map
              fun j => Nat.multichoose (n - j) k).sum := by
            apply congrArg
            apply List.map_congr_left
            intro j _
            exact hmap j
        _ = Nat.multichoose (n - lo) (k + 1) :=
            sum_multichoose_aux k (n - lo) n lo (by omega)
    · have h1 : n - lo = 0 := by omega
      rw [h1]
      simp

lemma combosWR_length (n k : ℕ) :
    (combosWR n k).length = Nat.multichoose n k := by
  have h := combosWRFrom_length n k 0
  rwa [Nat.sub_zero] at h

lemma prod_range_eq_ascFactorial (nx : ℕ) :
    ∀ i : ℕ, (∏ k ∈ Finset.range i, (nx + k)) = nx.ascFactorial i
  | 0 => by simp
  | i + 1 => by
    rw [Finset.prod_range_succ, prod_range_eq_ascFactorial nx i,
      Nat.ascFactorial_succ, Nat.mul_comm]

lemma malsPolyDim_eq_sum_multichoose (nx p : ℕ) :
    malsPolyDim nx p
      = ∑ i ∈ Finset.range p, Nat.multichoose nx (i + 1) := by
  unfold malsPolyDim
  apply Finset.sum_congr rfl
  intro i _
  rw [prod_range_eq_ascFactorial nx (i + 1),
    ← Nat.choose_eq_asc_factorial_div_factorial', ← Nat.multichoose_eq]

lemma polyExpandRow_length (p : ℕ) (row : List ℚ) :
    (polyExpandRow p row).length
      = row.length
        + ((List.range (p - 1)).map
            fun i => Nat.multichoose row.length (i + 2)).sum := by
  unfold polyExpandRow
  rw [List.length_append, List.length_flatMap, List.range'_eq_map_range,
    List.map_map]
  apply congrArg
  apply congrArg List.sum
  apply List.map_congr_left
  intro i _
  simp only [Function.comp_apply, List.length_map]
  rw [combosWR_length]
  congr 1
  omega

/-- C9: `polynomial_expansion` with `polynomial_order = 1` returns the
row unchanged; with order `p ≥ 1` the number of output columns is
`Σ_{d=1}^{p} C(nx + d - 1, d)` — all degree-`d` combinations-with-
replacement products for `d = 2..p` appended to the `nx` base features —
and this equals the dimension `nx_poly` used to size the accumulators at
construction. -/
theorem polynomial_expansion_spec (p nx : ℕ) (hp : 1 ≤ p) (row : List ℚ)
    (hrow : row.length = nx) :
    polyExpandRow 1 row = row
    ∧ (polyExpandRow p row).length
        = ∑ d ∈ Finset.Icc 1 p, (nx + d - 1).choose d
    ∧ (polyExpandRow p row).length = malsPolyDim nx p := by
  have hlist : ∀ m : ℕ,
      ((List.range m).map fun i => Nat.multichoose nx (i + 2)).sum
        = ∑ i ∈ Finset.range m, Nat.multichoose nx (i + 2) := fun _ => rfl
  have hlen : (polyExpandRow p row).length = malsPolyDim nx p := by
    rw [polyExpandRow_length, hrow, malsPolyDim_eq_sum_multichoose, hlist]
    obtain ⟨q, rfl⟩ : ∃ q, p = q + 1 := ⟨p - 1, by omega⟩
    rw [Finset.sum_range_succ' (fun i => Nat.multichoose nx (i + 1)) q]
    have h1 : Nat.multichoose nx (0 + 1) = nx := Nat.multichoose_one_right nx
    rw [h1, Nat.add_comm q 1, Nat.add_sub_cancel_left, Nat.add_comm]
  refine ⟨?_, ?_, hlen⟩
  · unfold polyExpandRow
    simp
  · rw [hlen, malsPolyDim_eq_sum_multichoose]
    rw [← Nat.Ico_succ_right, Finset.sum_Ico_eq_sum_range,
      Nat.succ_sub_one]
    apply Finset.sum_congr rfl
    intro i _
    rw [Nat.multichoose_eq, Nat.add_comm 1 i]

/-- Witness for `polynomial_expansion_spec` at order `2` on the row
`(3, 5)`: the expansion is `(3, 5, 9, 15, 25)` with
`5 = C(2,1) + C(3,2) = malsPolyDim 2 2` columns. -/
theorem polynomial_expansion_spec_witness :
    polyExpandRow 1 [(3 : ℚ), 5] = [(3 : ℚ), 5]
    ∧ (polyExpandRow 2 [(3 : ℚ), 5]).length
        = ∑ d ∈ Finset.Icc 1 2, (2 + d - 1).choose d
    ∧ (polyExpandRow 2 [(3 : ℚ), 5]).length = malsPolyDim 2 2 :=
  polynomial_expansion_spec 2 2 (by norm_num) [(3 : ℚ), 5] rfl

/-! ### The accumulator update formulas (C5) -/

/-- Values of the `MovingAvgLeastSquares.__init__` buffers (lines 270-281): identity
`Sxx`, zero `Sxy`, `lam0 = 0.9`, `lam1 = lam0 + lamdiff`. -/
def malsInitState (lamdiff : ℚ) : MALSState :=
  { Sxx0 := fun a b => if a = b then 1 else 0
    Sxy0 := fun _ _ => 0
    Sxx1 := fun a b => if a = b then 1 else 0
    Sxy1 := fun _ _ => 0
    lam0 := 9/10
    lam1 := 9/10 + lamdiff }

/-- C5, amended: the three trackers do **not** share one accumulator
formula.  Writing `emp` for the batch-only statistic:
`MovingAverageFilter` sets `A := (1 - lam) * emp + lam * A_prev` (`lam`
weights the previous accumulated value, as the claim states);
`QuadraticDiscriminantFilter` sets `A := (1 - lam) * A_prev + lam * emp`
(`lam` weights the *new batch*); and `MovingAvgLeastSquares` sets
`A := lam * A_prev + emp_sum`, where `emp_sum` is the summed (not
averaged) batch moment, with no `(1 - lam)` factor at all. -/
theorem accumulator_update_formulas
    (nx : ℕ) (lamdiff delta : ℚ) (x : List (ℕ → ℚ)) (y : List ℤ)
    (s : MAFState) (i : ℕ) (label : ℤ) (sQ : QDFClassState)
    (p : ℕ) (xs ys : List (List ℚ)) (sM : MALSState)
    (h1 : (rowsOfClass x y label).isEmpty = false)
    (h0 : (rowsNotClass x y label).isEmpty = false) :
    (∃ s', mafClassStep nx lamdiff delta x y s i label = some s'
        ∧ ∀ j, s'.m1 i j
            = (1 - s'.lam1 i) * rowsMeanD (rowsOfClass x y label) j
              + s'.lam1 i * s.m1 i j)
    ∧ (∃ q', qdfUpdateClass x y label sQ = some q'
        ∧ ∀ j, q'.m0a j
            = (1 - sQ.lama) * sQ.m0a j
              + sQ.lama * rowsMeanD (rowsNotClass x y label) j)
    ∧ (∀ a b, (malsUpdate p xs ys sM).Sxx0 a b
        = sM.lam0 * sM.Sxx0 a b
          + ((xs.map (polyExpandRow p)).map
              fun r => r.getD a 0 * r.getD b 0).sum) := by
  refine ⟨⟨mafClassStepD nx lamdiff delta x y s i label, ?_, ?_⟩,
    ⟨qdfUpdateClassD x y label sQ, ?_, ?_⟩, fun a b => rfl⟩
  · simp [mafClassStep, h1]
  · intro j
    simp [mafClassStepD, updRow, updAt]
  · simp [qdfUpdateClass, h1, h0]
  · intro j
    simp [qdfUpdateClassD]

/-- Witness for `accumulator_update_formulas` on the concrete batch
`x = [(1,...), (3,...)]`, `y = [0, 1]`, tracked label `1`. -/
theorem accumulator_update_formulas_witness :
    (∃ s', mafClassStep 1 (1/100) (1/1000)
          [fun _ => 1, fun _ => 3] [0, 1] (mafInitState (1/100)) 0 1
          = some s'
        ∧ ∀ j, s'.m1 0 j
            = (1 - s'.lam1 0)
                * rowsMeanD
                    (rowsOfClass [fun _ => 1, fun _ => 3] [0, 1] 1) j
              + s'.lam1 0 * (mafInitState (1/100)).m1 0 j)
    ∧ (∃ q', qdfUpdateClass [fun _ => 1, fun _ => 3] [0, 1] 1
          (qdfInitClassState (1/100)) = some q'
        ∧ ∀ j, q'.m0a j
            = (1 - (qdfInitClassState (1/100)).lama)
                * (qdfInitClassState (1/100)).m0a j
              + (qdfInitClassState (1/100)).lama
                * rowsMeanD
                    (rowsNotClass [fun _ => 1, fun _ => 3] [0, 1] 1) j)
    ∧ (∀ a b, (malsUpdate 1 [[2]] [[4]] (malsInitState (1/10))).Sxx0 a b
        = (malsInitState (1/10)).lam0 * (malsInitState (1/10)).Sxx0 a b
          + (([[(2 : ℚ)]].map (polyExpandRow 1)).map
              fun r => r.getD a 0 * r.getD b 0).sum) :=
  accumulator_update_formulas 1 (1/100) (1/1000)
    [fun _ => 1, fun _ => 3] [0, 1] (mafInitState (1/100)) 0 1
    (qdfInitClassState (1/100)) 1 [[2]] [[4]] (malsInitState (1/10))
    rfl rfl

/-- The all-zero batch row. -/
def zeroRow : ℕ → ℚ := fun _ => 0

/-- A `QuadraticDiscriminantFilter` per-class state whose rest-class mean
accumulator is the constant-`1` row (other buffers as at construction,
`lamdiff = 0.01`). -/
def qdfCexState : QDFClassState :=
  { qdfInitClassState (1/100) with m0a := fun _ => 1 }

/-- C5, counterexample: batch `x = [0, 0]`, `y = [0, 1]`, tracked
label `1`: the rest-class empirical mean is `0`, the previous accumulator
is `1`, `lama = 0.2`.  The claim's formula
`(1 - lam) * empirical + lam * previous` predicts `0.2`, but
`QuadraticDiscriminantFilter.update` produces
`(1 - lam) * previous + lam * empirical = 0.8`. -/
theorem qdf_update_weights_counterexample :
    ((qdfUpdateClass [zeroRow, zeroRow] [0, 1] 1 qdfCexState).map
        fun q' => q'.m0a 0) = some (4/5)
    ∧ (1 - qdfCexState.lama)
          * rowsMeanD (rowsNotClass [zeroRow, zeroRow] [0, 1] 1) 0
        + qdfCexState.lama * qdfCexState.m0a 0 = 1/5
    ∧ ((4 : ℚ)/5) ≠ 1/5 := by
  refine ⟨?_, ?_, by norm_num⟩
  · simp [qdfUpdateClass, qdfUpdateClassD, qdfCexState, qdfInitClassState,
      rowsNotClass, rowsOfClass, rowsMeanD, zeroRow]
    norm_num
  · simp [qdfCexState, qdfInitClassState, rowsNotClass, rowsMeanD, zeroRow]

/-! ### Empty classes are not skipped (C7) -/

/-- The single batch row of the failing input. -/
def c7Row : ℕ → ℚ := fun j => if j = 0 then 1 else 2

/-- C7, evaluation at the failing input: tracked classes `[0, 1]` and
a batch of one row labelled `0`, so class `1` has zero examples:
`MovingAverageFilter.evaluate_loss` does not skip the class — the empty
selection's mean (NaN in the source) is folded into the state and the run
is undefined (`none`, no exception raised, the scalar loss is NaN); and
`QuadraticDiscriminantFilter.update` with label `0` finds the rest-class
selection empty and is likewise undefined. -/
theorem empty_class_not_skipped :
    mafRunClasses 2 (1/100) (1/1000) [0, 1] [c7Row] [0]
        (mafInitState (1/100)) = none
    ∧ qdfUpdateClass [c7Row] [0] 0 (qdfInitClassState (1/100)) = none := by
  exact ⟨rfl, rfl⟩

/-! ### The mean-separation loss (C8) -/

/-- Combined-mean configuration for the C8 counterexample: every class row
of both `m1` and `m2` equals the same non-constant vector `(0, 2)`. -/
def mafCexRow : ℕ → ℕ → ℚ := fun _ j => if j = 0 then 0 else 2

/-- C8, counterexample: two classes, two features, `m1 = m2` with every
class row equal to the same vector `(0, 2)` — all tracked classes share
the same mean estimate — yet the loss of lines 63-67 is `√8 ≠ 0`: the
offset-one diagonal of line 64 differences adjacent *features* inside each
class row, not class rows against each other. -/
theorem maf_equal_means_nonzero_loss :
    (∀ c j, mafCexRow c j = mafCexRow 0 j)
    ∧ mafLoss 2 2 mafCexRow mafCexRow ≠ 0 := by
  constructor
  · intro c j
    rfl
  · have h : mafMeanDiffSq 2 2 mafCexRow mafCexRow = 8 := by
      simp [mafMeanDiffSq, mafCexRow, Finset.sum_range_succ]
      norm_num
    unfold mafLoss
    rw [h]
    have h8 : ((8 : ℚ) : ℝ) = 8 := by norm_num
    rw [h8]
    exact ne_of_gt (Real.sqrt_pos.mpr (by norm_num))

/-- C8, amended: the scalar returned by
`MovingAverageFilter.evaluate_loss` is exactly zero **iff** every class's
combined mean estimate `0.5 * (m1 + m2)` takes the same value at adjacent
feature coordinates (i.e. each class's combined mean row is constant);
all classes sharing one mean vector is neither necessary nor sufficient. -/
theorem maf_loss_zero_iff (C nx : ℕ) (m1 m2 : ℕ → ℕ → ℚ) :
    mafLoss C nx m1 m2 = 0
      ↔ ∀ c < C, ∀ k < nx - 1,
          (1/2) * (m1 c (k+1) + m2 c (k+1))
            = (1/2) * (m1 c k + m2 c k) := by
  have hnn : (0 : ℚ) ≤ mafMeanDiffSq C nx m1 m2 := by
    apply Finset.sum_nonneg
    intro c _
    apply Finset.sum_nonneg
    intro k _
    positivity
  constructor
  · intro h
    have hle : ((mafMeanDiffSq C nx m1 m2 : ℚ) : ℝ) ≤ 0 :=
      Real.sqrt_eq_zero'.mp h
    have hq : mafMeanDiffSq C nx m1 m2 = 0 :=
      le_antisymm (by exact_mod_cast hle) hnn
    rw [mafMeanDiffSq,
      Finset.sum_eq_zero_iff_of_nonneg
        (fun c _ => Finset.sum_nonneg fun k _ => by positivity)] at hq
    intro c hc k hk
    have h2 := hq c (Finset.mem_range.mpr hc)
    rw [Finset.sum_eq_zero_iff_of_nonneg (fun k _ => by positivity)] at h2
    have h3 := h2 k (Finset.mem_range.mpr hk)
    have h4 := (pow_eq_zero_iff two_ne_zero).mp h3
    linarith [sub_eq_zero.mp h4]
  · intro h
    have hq : mafMeanDiffSq C nx m1 m2 = 0 := by
      unfold mafMeanDiffSq
      apply Finset.sum_eq_zero
      intro c hc
      apply Finset.sum_eq_zero
      intro k hk
      rw [h c (Finset.mem_range.mp hc) k (Finset.mem_range.mp hk)]
      simp
    unfold mafLoss
    rw [hq]
    simp

/-! ### Construction-time misconfiguration (C6) -/

/-- The reversal branches `LinearDisentangle.__init__` can construct. -/
inductive ReversalKind where
  | mlpChain
  | linearProbe
  | revEnsemble
  | mlpEnsembleOf (nModels : ℕ)
deriving DecidableEq, Repr

/-- Branch selection of `LinearDisentangle.__init__` (lines 526-549):
`"mlp"`, `"linear"` and `"ensemble"` build the respective reversal
branches (the ensemble splitting on `n_models == None or n_models == 0`);
**any other value falls into the final `else`, which merely sets
`self.reversal = None`** — no branch raises. -/
def ldInitReversal (reversal : String) (nModels : Option ℕ) :
    Option ReversalKind :=
  if reversal = ("mlp") then some ReversalKind.mlpChain
  else if reversal = ("linear") then some ReversalKind.linearProbe
  else if reversal = ("ensemble") then
    if nModels = none ∨ nModels = some 0 then some ReversalKind.revEnsemble
    else some (ReversalKind.mlpEnsembleOf (nModels.getD 0))
  else none

/-- Model of `LinearDisentangle.__init__` as a fallible computation (a Python raise
would be `Except.error`): the source raises on no path, so construction
always completes, with `none` as the reversal attribute whenever the
string is unrecognised. -/
def ldInit (reversal : String) (nModels : Option ℕ) :
    Except String (Option ReversalKind) :=
  Except.ok (ldInitReversal reversal nModels)

/-- Model of `MovingAvgLeastSquares.__init__` as a fallible computation, for an
arbitrary integer `polynomial_order`: `range(1, polynomial_order + 1)` is
empty when the order is non-positive, so `nx_poly = 0` and construction
completes with accumulators of dimension `int(0) + bias` — degenerate
`0×0` (or `1×1`) buffers, not an error. -/
def malsInit (nx : ℕ) (polynomialOrder : ℤ) (bias : Bool) :
    Except String ℕ :=
  Except.ok (malsPolyDim nx polynomialOrder.toNat
    + (if bias then 1 else 0))

/-- C6, counterexample: an unknown reversal branch type
(`"garbage"`) completes `LinearDisentangle.__init__` with
`reversal = None`, and polynomial order `0` completes
`MovingAvgLeastSquares.__init__` with accumulator dimension `0`: neither
misconfiguration raises. -/
theorem construct_misconfig_counterexample :
    ldInit ("garbage") none = Except.ok none
    ∧ malsInit 3 0 false = Except.ok 0 := by
  exact ⟨rfl, rfl⟩

/-- C6, amended: construction-time misconfiguration does **not**
raise: for every reversal string other than `"mlp"`, `"linear"` and
`"ensemble"`, `LinearDisentangle.__init__` completes with
`self.reversal = None` (silently disabling the adversarial branch), and
for every non-positive polynomial order `MovingAvgLeastSquares.__init__`
completes with accumulators sized `0 + bias`. -/
theorem construct_misconfig_silent (reversal : String) (nModels : Option ℕ)
    (h1 : reversal ≠ ("mlp")) (h2 : reversal ≠ ("linear"))
    (h3 : reversal ≠ ("ensemble")) (nx : ℕ) (pOrder : ℤ)
    (hp : pOrder ≤ 0) (bias : Bool) :
    ldInit reversal nModels = Except.ok none
    ∧ malsInit nx pOrder bias = Except.ok (if bias then 1 else 0) := by
  constructor
  · unfold ldInit ldInitReversal
    rw [if_neg h1, if_neg h2, if_neg h3]
  · unfold malsInit
    have ht : pOrder.toNat = 0 := Int.toNat_of_nonpos hp
    rw [ht]
    simp [malsPolyDim]

/-- Witness for `construct_misconfig_silent` at reversal string `"null"`
and polynomial order `-1`. -/
theorem construct_misconfig_silent_witness :
    ldInit ("null") none = Except.ok none
    ∧ malsInit 3 (-1) false = Except.ok (if false then 1 else 0) :=
  construct_misconfig_silent ("null") none (by decide) (by decide)
    (by decide) 3 (-1) (by norm_num) false

/-! ### `MovingAverageFilter.__init__` never completes (C10) -/

/-- Minimal model of the PyTorch module protocol: `nn.Module.__init__`
creates the internal buffer registry of the instance. -/
structure PyModuleCore where
  baseInitialized : Bool

/-- Model of `nn.Module.register_buffer`: raises
`AttributeError("cannot assign buffer before Module.__init__() call")`
when the registry does not yet exist. -/
def registerBuffer (core : PyModuleCore) (bufName : String) :
    Except String PyModuleCore :=
  if core.baseInitialized then Except.ok core
  else Except.error ("cannot assign buffer before Module.__init__() call")

/-- Model of `MovingAverageFilter.__init__` (lines 13-26): assigns `self.classes`,
then registers the buffers `m1`, `m2`, `lam1`, `lam2`; unlike the other
trackers it never calls `super().__init__()`, so the base module state is
still uninitialised at the first `register_buffer` call (line 17). -/
def mafInit (nx : ℕ) (classes : List ℤ) (lamdiff delta : ℚ) :
    Except String Unit := do
  let core0 : PyModuleCore := { baseInitialized := false }
  let core1 ← registerBuffer core0 ("m1")
  let core2 ← registerBuffer core1 ("m2")
  let core3 ← registerBuffer core2 ("lam1")
  let _ ← registerBuffer core3 ("lam2")
  pure ()

/-- C10: constructing a `MovingAverageFilter` raises for every choice
of arguments: the initializer invokes buffer registration without first
performing the module base-class initialization, so the very first
`register_buffer` (line 17) raises `AttributeError` and no instance is
ever produced — hence no `MovingAverageFilter` operation is reachable on
a constructed instance. -/
theorem mafInit_always_raises (nx : ℕ) (classes : List ℤ)
    (lamdiff delta : ℚ) :
    mafInit nx classes lamdiff delta
      = Except.error ("cannot assign buffer before Module.__init__() call")
    := rfl

end ScrubVae
